import Mathlib

/-
Shallow embedding of pushover21/parallel-limiter (src/index.js).

The library runs under single-threaded cooperative (event-loop) concurrency.
We model the two concurrency-limiting components as small-step transition
systems over explicit states:

* `ParallelLimiter.schedule` (src/index.js lines 67-88): an unbounded
  population of pending `schedule` calls, each in a phase
  (waiting / running / done).  A synchronous segment of JS code is one
  step of the relation; the check-then-increment of the admission loop is
  a single step because no `await` separates the loop exit from
  `this.runningCount++`.

* `allSettledParallelLimited` (src/index.js lines 11-51): the dispatch
  loop, the fire-and-continue job launches, the completion callbacks and
  the drain loop.

Each state carries the list of observable events emitted so far:
suspensions (calls of `asyncTimeout`) and diagnostic strings routed to the
logger, abstracted to their kind.  Completion callbacks are allowed to
interleave at any point of the dispatch/drain phases; this over-approximates
the real microtask schedule (where they run only while the main coroutine is
suspended), so safety results hold for every real interleaving.
-/

set_option autoImplicit false

namespace ParallelLimiter

variable {E V : Type}

/-- Phase of one pending `schedule` call: still polling for admission,
admitted with its operation in flight, or settled with the operation's
outcome. -/
inductive TaskPhase (E V : Type) where
  | waiting
  | running
  | done (result : Except E V)

/-- Observable events of the limiter: timer suspensions, the optional
retry diagnostic, the start diagnostic, the invocation of task `k`'s
operation, and the finalized/failed diagnostics. -/
inductive LEvent where
  | suspended
  | logMaxReached
  | logStarted
  | invoked (k : Nat)
  | logFinalized
  | logFailed
deriving DecidableEq

/-- Global state: the shared `runningCount` field, the phase of every
pending `schedule` call, and the event trace. -/
structure LState (E V : Type) where
  runningCount : Int
  tasks : Nat → TaskPhase E V
  events : List LEvent

/-- One iteration of the admission loop's body (src/index.js lines 68-73):
optionally log the retry diagnostic, then suspend on `asyncTimeout`.
The state of the counter and of the tasks is unchanged. -/
def pollStep (logRetries : Bool) (s : LState E V) : LState E V :=
  { s with events :=
      s.events ++ (if logRetries then [LEvent.logMaxReached] else []) ++ [LEvent.suspended] }

/-- The synchronous segment right after the admission loop exits
(src/index.js lines 75-77): `this.runningCount++`, the start diagnostic,
then `promiseProvider()` is invoked.  No suspension separates the loop
exit from the increment, so this is one atomic step. -/
def acquireStep (s : LState E V) (k : Nat) : LState E V :=
  { runningCount := s.runningCount + 1,
    tasks := Function.update s.tasks k TaskPhase.running,
    events := s.events ++ [LEvent.logStarted, LEvent.invoked k] }

/-- The try/catch around `await promise` (src/index.js lines 78-88): on
success decrement the counter and return the value, on failure decrement
the counter and rethrow the error.  The outcome passes through unchanged
on both paths. -/
def scheduleSettle (o : Except E V) (runningCount : Int) : Except E V × Int :=
  match o with
  | Except.ok v => (Except.ok v, runningCount - 1)
  | Except.error e => (Except.error e, runningCount - 1)

/-- Diagnostic emitted when the awaited operation settles
(src/index.js lines 81 and 85). -/
def settleEvent (o : Except E V) : LEvent :=
  match o with
  | Except.ok _ => LEvent.logFinalized
  | Except.error _ => LEvent.logFailed

/-- The synchronous segment run when task `k`'s operation settles with
outcome `ops k`: the counter and the call's result are those produced by
`scheduleSettle`, and the matching diagnostic is emitted. -/
def completeStep (ops : Nat → Except E V) (s : LState E V) (k : Nat) : LState E V :=
  { runningCount := (scheduleSettle (ops k) s.runningCount).2,
    tasks := Function.update s.tasks k (TaskPhase.done (scheduleSettle (ops k) s.runningCount).1),
    events := s.events ++ [settleEvent (ops k)] }

/-- Small-step relation for any interleaving of `schedule` calls.
`maxParallel` is the configured capacity, `logRetries` gates the retry
diagnostic, and `ops k` is the outcome task `k`'s operation eventually
settles with. -/
inductive LStep (maxParallel : Int) (logRetries : Bool) (ops : Nat → Except E V) :
    LState E V → LState E V → Prop where
  | poll (s : LState E V) (k : Nat) :
      s.tasks k = TaskPhase.waiting → s.runningCount ≥ maxParallel →
      LStep maxParallel logRetries ops s (pollStep logRetries s)
  | acquire (s : LState E V) (k : Nat) :
      s.tasks k = TaskPhase.waiting → s.runningCount < maxParallel →
      LStep maxParallel logRetries ops s (acquireStep s k)
  | complete (s : LState E V) (k : Nat) :
      s.tasks k = TaskPhase.running →
      LStep maxParallel logRetries ops s (completeStep ops s k)

/-- Initial state: `runningCount = 0` (src/index.js line 64) and every
`schedule` call still pending at its admission check. -/
def LInit (E V : Type) : LState E V :=
  { runningCount := 0, tasks := fun _ => TaskPhase.waiting, events := [] }

/-- States reachable from the initial state by some interleaving. -/
def LReach (maxParallel : Int) (logRetries : Bool) (ops : Nat → Except E V)
    (s : LState E V) : Prop :=
  Relation.ReflTransGen (LStep maxParallel logRetries ops) (LInit E V) s

end ParallelLimiter

namespace AllSettled

variable {J E V : Type}

/-- Behavior of `jobToPromise(job)` for one job: either it raises
synchronously before returning a promise, or it returns a promise that
eventually settles with outcome `o`. -/
inductive JobRun (E V : Type) where
  | sThrow (e : E)
  | asyncOp (o : Except E V)

/-- Observable events of `allSettledParallelLimited`: the admission-loop
diagnostic and suspension (src/index.js lines 23-27), the start diagnostic
(line 31), and the drain-loop diagnostic and suspension (lines 43-48). -/
inductive BEvent where
  | logRunningWait (i : Nat)
  | suspendedAcquire
  | logStarted (i : Nat)
  | logDrainWait
  | suspendedDrain
deriving DecidableEq

/-- Status tag of a settled-outcome record. -/
inductive RecStatus where
  | fulfilled
  | rejected
deriving DecidableEq

/-- One settled-outcome record pushed onto `runs`: `{status, value}` or
`{status, reason: {error, job}}` (src/index.js lines 36 and 39). -/
structure BatchRec (J E V : Type) where
  status : RecStatus
  value : Option V
  reason : Option (E × J)

/-- The record the completion callbacks build for job `j` with settled
outcome `o` (src/index.js lines 34-40). -/
def mkRec (j : J) (o : Except E V) : BatchRec J E V :=
  match o with
  | Except.ok v => { status := RecStatus.fulfilled, value := some v, reason := none }
  | Except.error e => { status := RecStatus.rejected, value := none, reason := some (e, j) }

/-- Control position of the batch coroutine: still in the dispatch loop,
in the drain loop, returned with `runs`, or aborted by a synchronous
throw escaping the loop (which rejects the whole batch promise). -/
inductive BPhase (E : Type) where
  | dispatching
  | draining
  | returned
  | crashed (e : E)

/-- State of one `allSettledParallelLimited` run: the loop index `i`, the
`runningCount` counter, the indices of dispatched-but-unsettled jobs, the
accumulated `runs` records, the event trace, and the control phase. -/
structure BState (J E V : Type) where
  i : Nat
  runningCount : Int
  inFlight : List Nat
  runs : List (BatchRec J E V)
  events : List BEvent
  phase : BPhase E

/-- Configuration of one call: the job list, the job-to-promise
conversion (modelled by the outcome it produces per job), the capacity
and the retry-diagnostic flag. -/
structure BConfig (J E V : Type) where
  jobs : List J
  jobToPromise : J → JobRun E V
  maxParallel : Int
  logRetries : Bool

/-- Small-step relation for one batch run.  Completion callbacks
(`complete`) may fire at any point of the dispatch or drain phases,
over-approximating the event-loop schedule. -/
inductive BStep (cfg : BConfig J E V) : BState J E V → BState J E V → Prop where
  | pollWait (s : BState J E V) :
      s.phase = BPhase.dispatching → s.i < cfg.jobs.length →
      s.runningCount ≥ cfg.maxParallel →
      BStep cfg s { s with events :=
        s.events ++ (if cfg.logRetries then [BEvent.logRunningWait s.i] else [])
          ++ [BEvent.suspendedAcquire] }
  | dispatch (s : BState J E V) (h : s.i < cfg.jobs.length) (o : Except E V) :
      s.phase = BPhase.dispatching → s.runningCount < cfg.maxParallel →
      cfg.jobToPromise (cfg.jobs.get ⟨s.i, h⟩) = JobRun.asyncOp o →
      BStep cfg s { i := s.i + 1, runningCount := s.runningCount + 1,
                    inFlight := s.inFlight ++ [s.i], runs := s.runs,
                    events := s.events ++ [BEvent.logStarted s.i],
                    phase := BPhase.dispatching }
  | dispatchThrow (s : BState J E V) (h : s.i < cfg.jobs.length) (e : E) :
      s.phase = BPhase.dispatching → s.runningCount < cfg.maxParallel →
      cfg.jobToPromise (cfg.jobs.get ⟨s.i, h⟩) = JobRun.sThrow e →
      BStep cfg s { s with
                      runningCount := s.runningCount + 1,
                      events := s.events ++ [BEvent.logStarted s.i],
                      phase := BPhase.crashed e }
  | complete (s : BState J E V) (k : Nat) (hk : k < cfg.jobs.length) (o : Except E V) :
      (s.phase = BPhase.dispatching ∨ s.phase = BPhase.draining) →
      k ∈ s.inFlight →
      cfg.jobToPromise (cfg.jobs.get ⟨k, hk⟩) = JobRun.asyncOp o →
      BStep cfg s { s with
                      inFlight := s.inFlight.erase k,
                      runningCount := s.runningCount - 1,
                      runs := s.runs ++ [mkRec (cfg.jobs.get ⟨k, hk⟩) o] }
  | startDrain (s : BState J E V) :
      s.phase = BPhase.dispatching → s.i = cfg.jobs.length →
      BStep cfg s { s with phase := BPhase.draining }
  | drainPoll (s : BState J E V) :
      s.phase = BPhase.draining → s.runningCount ≥ 1 →
      BStep cfg s { s with events :=
        s.events ++ (if cfg.logRetries then [BEvent.logDrainWait] else [])
          ++ [BEvent.suspendedDrain] }
  | finish (s : BState J E V) :
      s.phase = BPhase.draining → s.runningCount < 1 →
      BStep cfg s { s with phase := BPhase.returned }

/-- Initial state of a batch run (src/index.js lines 20-21). -/
def BInit (J E V : Type) : BState J E V :=
  { i := 0, runningCount := 0, inFlight := [], runs := [], events := [],
    phase := BPhase.dispatching }

/-- States reachable during the batch run. -/
def BReach (cfg : BConfig J E V) (s : BState J E V) : Prop :=
  Relation.ReflTransGen (BStep cfg) (BInit J E V) s

/-- A batch state whose coroutine has not been aborted by a synchronous
throw: it is dispatching, draining or returned. -/
def BLive (s : BState J E V) : Prop :=
  s.phase = BPhase.dispatching ∨ s.phase = BPhase.draining ∨ s.phase = BPhase.returned

end AllSettled

/-- The null controller (src/index.js line 3):
`noLimiter.schedule = async asyncRunner => asyncRunner()`.  Its body is a
bare call of the runner, so the controller-action trace (suspensions,
diagnostics, counter updates, in the same alphabet as the limiter's) is
empty, and the outcome is the runner's own outcome. -/
def noLimiter_schedule {E V : Type} (asyncRunner : Unit → Except E V) :
    Except E V × List ParallelLimiter.LEvent :=
  (asyncRunner (), [])

namespace JSLogger

/-- Minimal JavaScript value model for the constructor's logger handling
(src/index.js line 62): undefined, null, a function (identified by a
tag), or an object carrying a `debug` property. -/
inductive JSVal where
  | undef
  | null
  | func (tag : Nat)
  | obj (debug : JSVal)
deriving DecidableEq

/-- The optional-chaining read `logger?.debug`: undefined when the logger
is nullish, the `debug` property value of an object, and undefined for a
plain function value (which carries no `debug` property here). -/
def optChainDebug : JSVal → JSVal
  | JSVal.undef => JSVal.undef
  | JSVal.null => JSVal.undef
  | JSVal.func _ => JSVal.undef
  | JSVal.obj d => d

/-- The nullish-coalescing operator `a ?? b`: `b` when `a` is undefined
or null, otherwise `a`. -/
def nullishCoalesce (a b : JSVal) : JSVal :=
  match a with
  | JSVal.undef => b
  | JSVal.null => b
  | _ => a

/-- src/index.js line 62: `this.logger = logger?.debug ?? logger`. -/
def loggerSink (logger : JSVal) : JSVal :=
  nullishCoalesce (optChainDebug logger) logger

/-- A JavaScript value is nullish when it is undefined or null. -/
def isNullish : JSVal → Bool
  | JSVal.undef => true
  | JSVal.null => true
  | _ => false

end JSLogger

/-- A one-job batch whose `jobToPromise` raises synchronously (models
`jobToPromise = job => job()` with a plain job function that throws the
value 7 before returning a promise), capacity 1. -/
def cfgThrow : AllSettled.BConfig Unit Nat Unit :=
  { jobs := [()], jobToPromise := fun _ => AllSettled.JobRun.sThrow 7,
    maxParallel := 1, logRetries := false }

/-- The state the `cfgThrow` run is driven into by its only possible
step: the job was counted and logged as started, then the synchronous
throw escaped the dispatch loop and rejected the batch with 7. -/
def crashThrow : AllSettled.BState Unit Nat Unit :=
  { i := 0, runningCount := 1, inFlight := [], runs := [],
    events := [AllSettled.BEvent.logStarted 0],
    phase := AllSettled.BPhase.crashed 7 }

/-- A one-job batch with capacity 1 (equal to the job count) and verbose
retries, whose job settles successfully. -/
def cfgDrain : AllSettled.BConfig Unit Unit Unit :=
  { jobs := [()], jobToPromise := fun _ => AllSettled.JobRun.asyncOp (Except.ok ()),
    maxParallel := 1, logRetries := true }

/-- The `cfgDrain` state reached by dispatching the job, leaving the
dispatch loop and running one iteration of the drain loop, which emits
the waiting-for-completion diagnostic and suspends. -/
def drainState : AllSettled.BState Unit Unit Unit :=
  { i := 1, runningCount := 1, inFlight := [0], runs := [],
    events := [AllSettled.BEvent.logStarted 0, AllSettled.BEvent.logDrainWait,
      AllSettled.BEvent.suspendedDrain],
    phase := AllSettled.BPhase.draining }

/-- A concrete one-job batch whose job settles with the value 7, used to
exercise the batch-runner results theorem. -/
def cfgOk : AllSettled.BConfig Nat Unit Nat :=
  { jobs := [5], jobToPromise := fun _ => AllSettled.JobRun.asyncOp (Except.ok 7),
    maxParallel := 1, logRetries := false }

namespace ParallelLimiter

/-- The try/catch segment never alters the outcome and always decrements
the counter by one, on the success path and on the failure path alike. -/
theorem scheduleSettle_eq {E V : Type} (o : Except E V) (c : Int) :
    scheduleSettle o c = (o, c - 1) := by
  cases o <;> rfl

/-- The settle diagnostic is never an invocation event. -/
theorem settleEvent_ne_invoked {E V : Type} (o : Except E V) (k : Nat) :
    settleEvent o ≠ LEvent.invoked k := by
  cases o <;> simp [settleEvent]

/-- With a non-negative capacity, `runningCount` never exceeds
`maxParallel` in any reachable limiter state: admission increments only
under `runningCount < maxParallel`, and that check-then-increment is a
single synchronous segment. -/
theorem lreach_count_le {E V : Type} {mp : Int} {lr : Bool} {ops : Nat → Except E V}
    (hmp : 0 ≤ mp) {s : LState E V} (h : LReach mp lr ops s) :
    s.runningCount ≤ mp := by
  induction h with
  | refl => simpa [LInit] using hmp
  | tail h1 h2 ih =>
    cases h2 with
    | poll k0 hw hge => simpa [pollStep] using ih
    | acquire k0 hw hlt => simp only [acquireStep]; omega
    | complete k0 hr => simp only [completeStep, scheduleSettle_eq]; omega

/-- With a non-positive capacity the gate deadlocks: every reachable
limiter state still has counter zero, every `schedule` call still at its
admission check, and no operation ever invoked. -/
theorem lreach_deadlock {E V : Type} {mp : Int} {lr : Bool} {ops : Nat → Except E V}
    (hmp : mp ≤ 0) {s : LState E V} (h : LReach mp lr ops s) :
    s.runningCount = 0 ∧ (∀ k, s.tasks k = TaskPhase.waiting) ∧
      (∀ k, LEvent.invoked k ∉ s.events) := by
  induction h with
  | refl => refine ⟨rfl, fun k => rfl, fun k => ?_⟩; simp [LInit]
  | tail h1 h2 ih =>
    cases h2 with
    | poll k0 hw hge =>
      refine ⟨ih.1, ih.2.1, fun k' => ?_⟩
      cases lr <;> simp [pollStep, List.mem_append] <;> exact ih.2.2 k'
    | acquire k0 hw hlt =>
      exact absurd hlt (by rw [ih.1]; omega)
    | complete k0 hr =>
      exact absurd (ih.2.1 k0) (by rw [hr]; simp)

/-- One step preserves the per-task invocation bookkeeping: zero
invocation events while the task waits, exactly one afterwards. -/
theorem linvoked_preserve {E V : Type} {mp : Int} {lr : Bool} {ops : Nat → Except E V}
    {t u : LState E V} (hstep : LStep mp lr ops t u) (k : Nat)
    (ih : (t.tasks k = TaskPhase.waiting → t.events.count (LEvent.invoked k) = 0) ∧
      (t.tasks k ≠ TaskPhase.waiting → t.events.count (LEvent.invoked k) = 1)) :
    (u.tasks k = TaskPhase.waiting → u.events.count (LEvent.invoked k) = 0) ∧
      (u.tasks k ≠ TaskPhase.waiting → u.events.count (LEvent.invoked k) = 1) := by
  cases hstep with
  | poll k0 hw hge =>
    have hcnt : (pollStep lr t).events.count (LEvent.invoked k) =
        t.events.count (LEvent.invoked k) := by
      cases lr <;> simp [pollStep, List.count_append]
    have htk : (pollStep lr t).tasks k = t.tasks k := rfl
    rw [hcnt, htk]
    exact ih
  | acquire k0 hw hlt =>
    by_cases hk : k = k0
    · subst hk
      constructor
      · intro hwait
        rw [show (acquireStep t k).tasks k = TaskPhase.running by
          simp [acquireStep]] at hwait
        cases hwait
      · intro _
        have h0 : t.events.count (LEvent.invoked k) = 0 := ih.1 hw
        simp [acquireStep, List.count_append, h0]
    · have htk : (acquireStep t k0).tasks k = t.tasks k := by
        simp [acquireStep, Function.update_noteq hk]
      have hcnt : (acquireStep t k0).events.count (LEvent.invoked k) =
          t.events.count (LEvent.invoked k) := by
        simp [acquireStep, List.count_append, List.count_cons, hk]
      rw [htk, hcnt]
      exact ih
  | complete k0 hr =>
    have hcnt : (completeStep ops t k0).events.count (LEvent.invoked k) =
        t.events.count (LEvent.invoked k) := by
      simp [completeStep, List.count_append, List.count_singleton,
        settleEvent_ne_invoked]
    by_cases hk : k = k0
    · subst hk
      constructor
      · intro hwait
        rw [show (completeStep ops t k).tasks k =
            TaskPhase.done (scheduleSettle (ops k) t.runningCount).1 by
          simp [completeStep]] at hwait
        cases hwait
      · intro _
        rw [hcnt]
        exact ih.2 (by rw [hr]; intro hc; cases hc)
    · have htk : (completeStep ops t k0).tasks k = t.tasks k := by
        simp [completeStep, Function.update_noteq hk]
      rw [htk, hcnt]
      exact ih

/-- In every reachable limiter state, a task's operation has been invoked
zero times while the task is waiting and exactly once afterwards. -/
theorem lreach_invoked_once {E V : Type} {mp : Int} {lr : Bool} {ops : Nat → Except E V}
    {s : LState E V} (h : LReach mp lr ops s) (k : Nat) :
    (s.tasks k = TaskPhase.waiting → s.events.count (LEvent.invoked k) = 0) ∧
      (s.tasks k ≠ TaskPhase.waiting → s.events.count (LEvent.invoked k) = 1) := by
  induction h with
  | refl => exact ⟨fun _ => rfl, fun hne => absurd rfl hne⟩
  | tail h1 h2 ih => exact linvoked_preserve h2 k ih

end ParallelLimiter


namespace AllSettled

/-- With a non-negative capacity, the batch `runningCount` never exceeds
`maxParallel` in any state reachable during the run: the dispatch steps
increment only under `runningCount < maxParallel`. -/
theorem breach_count_le {J E V : Type} {cfg : BConfig J E V}
    (hmp : 0 ≤ cfg.maxParallel) {s : BState J E V} (h : BReach cfg s) :
    s.runningCount ≤ cfg.maxParallel := by
  induction h with
  | refl => simpa [BInit] using hmp
  | tail h1 h2 ih =>
    cases h2 with
    | pollWait h1 h2 h3 => simpa using ih
    | dispatch h o h1 h2 h3 => simp only []; omega
    | dispatchThrow h e h1 h2 h3 => simp only []; omega
    | complete k hk o h1 h2 h3 => simp only []; omega
    | startDrain h1 h2 => simpa using ih
    | drainPoll h1 h2 => simpa using ih
    | finish h1 h2 => simpa using ih

/-- While the batch has not crashed, the counter never exceeds the number
of dispatched jobs (each dispatch increments both). -/
theorem breach_count_le_i {J E V : Type} {cfg : BConfig J E V}
    {s : BState J E V} (h : BReach cfg s) :
    BLive s → s.runningCount ≤ (s.i : Int) := by
  induction h with
  | refl => intro _; simp [BInit]
  | tail h1 h2 ih =>
    cases h2 with
    | pollWait hd hi hge => intro _; simpa using ih (Or.inl hd)
    | dispatch h o hd hlt hjtp =>
      intro _
      have hpre := ih (Or.inl hd)
      push_cast
      push_cast at hpre
      omega
    | dispatchThrow h e hd hlt hjtp =>
      intro hlive
      rcases hlive with hl | hl | hl <;> simp [BLive] at hl
    | complete k hk o hph hmem hjtp =>
      intro _
      have hpre := ih (by rcases hph with hp | hp
                          exacts [Or.inl hp, Or.inr (Or.inl hp)])
      simp only []
      omega
    | startDrain hd hi => intro _; simpa using ih (Or.inl hd)
    | drainPoll hd hge => intro _; simpa using ih (Or.inr (Or.inl hd))
    | finish hd hlt => intro _; simpa using ih (Or.inr (Or.inl hd))

/-- While the batch has not crashed, the counter equals the number of
in-flight jobs and the records plus the in-flight jobs account exactly
for the dispatched jobs. -/
theorem breach_live_counts {J E V : Type} {cfg : BConfig J E V}
    {s : BState J E V} (h : BReach cfg s) :
    BLive s → s.runningCount = (s.inFlight.length : Int) ∧
      s.runs.length + s.inFlight.length = s.i := by
  induction h with
  | refl => intro _; simp [BInit]
  | tail h1 h2 ih =>
    cases h2 with
    | pollWait hd hi hge => intro _; simpa using ih (Or.inl hd)
    | dispatch h o hd hlt hjtp =>
      intro _
      have hpre := ih (Or.inl hd)
      simp only [List.length_append, List.length_cons, List.length_nil]
      push_cast
      push_cast at hpre
      omega
    | dispatchThrow h e hd hlt hjtp =>
      intro hlive
      rcases hlive with hl | hl | hl <;> simp [BLive] at hl
    | complete k hk o hph hmem hjtp =>
      intro _
      have hpre := ih (by rcases hph with hp | hp
                          exacts [Or.inl hp, Or.inr (Or.inl hp)])
      have hlen := List.length_erase_of_mem hmem
      have hpos := List.length_pos_of_mem hmem
      simp only [List.length_append, List.length_cons, List.length_nil, hlen]
      push_cast
      push_cast at hpre
      omega
    | startDrain hd hi => intro _; simpa using ih (Or.inl hd)
    | drainPoll hd hge => intro _; simpa using ih (Or.inr (Or.inl hd))
    | finish hd hlt => intro _; simpa using ih (Or.inr (Or.inl hd))

/-- Once the batch is draining or returned, all jobs have been dispatched,
and at return the drain condition has failed, so the counter is below 1. -/
theorem breach_phase {J E V : Type} {cfg : BConfig J E V}
    {s : BState J E V} (h : BReach cfg s) :
    ((s.phase = BPhase.draining ∨ s.phase = BPhase.returned) → s.i = cfg.jobs.length) ∧
      (s.phase = BPhase.returned → s.runningCount < 1) := by
  induction h with
  | refl =>
    refine ⟨fun hx => ?_, fun hx => ?_⟩
    · rcases hx with hx | hx <;> simp [BInit] at hx
    · simp [BInit] at hx
  | tail h1 h2 ih =>
    cases h2 with
    | pollWait hd hi hge => simpa using ih
    | dispatch h o hd hlt hjtp =>
      refine ⟨fun hx => ?_, fun hx => ?_⟩
      · rcases hx with hx | hx <;> simp at hx
      · simp at hx
    | dispatchThrow h e hd hlt hjtp =>
      refine ⟨fun hx => ?_, fun hx => ?_⟩
      · rcases hx with hx | hx <;> simp at hx
      · simp at hx
    | complete k hk o hph hmem hjtp =>
      refine ⟨fun hx => ih.1 hx, fun hx => ?_⟩
      rcases hph with hp | hp <;> simp [hp] at hx
    | startDrain hd hi => exact ⟨fun _ => hi, fun hx => by simp at hx⟩
    | drainPoll hd hge =>
      refine ⟨fun _ => ih.1 (Or.inl hd), fun hx => ?_⟩
      simp [hd] at hx
    | finish hd hlt => exact ⟨fun _ => ih.1 (Or.inl hd), fun _ => hlt⟩

/-- Every record accumulated in `runs` is the record of some input job
whose conversion produced a promise, built by the completion callbacks. -/
theorem breach_runs_from_jobs {J E V : Type} {cfg : BConfig J E V}
    {s : BState J E V} (h : BReach cfg s) :
    ∀ r ∈ s.runs, ∃ j, j ∈ cfg.jobs ∧
      ∃ o, cfg.jobToPromise j = JobRun.asyncOp o ∧ r = mkRec j o := by
  induction h with
  | refl => intro r hr; simp [BInit] at hr
  | tail h1 h2 ih =>
    cases h2 with
    | pollWait hd hi hge => simpa using ih
    | dispatch h o hd hlt hjtp => simpa using ih
    | dispatchThrow h e hd hlt hjtp => simpa using ih
    | complete k hk o hph hmem hjtp =>
      intro r hr
      rcases List.mem_append.mp hr with hr | hr
      · exact ih r hr
      · have hrec : r = mkRec (cfg.jobs.get ⟨k, hk⟩) o := by simpa using hr
        exact ⟨cfg.jobs.get ⟨k, hk⟩, List.get_mem cfg.jobs k hk, o, hjtp, hrec⟩
    | startDrain hd hi => simpa using ih
    | drainPoll hd hge => simpa using ih
    | finish hd hlt => simpa using ih

/-- When the capacity is at least the job count, the body of the
admission loop never runs: no state reachable during the batch holds an
admission-wait suspension or an admission-wait diagnostic. -/
theorem breach_no_acquire_wait {J E V : Type} {cfg : BConfig J E V}
    (hcap : (cfg.jobs.length : Int) ≤ cfg.maxParallel)
    {s : BState J E V} (h : BReach cfg s) :
    BEvent.suspendedAcquire ∉ s.events ∧
      ∀ i, BEvent.logRunningWait i ∉ s.events := by
  induction h with
  | refl => refine ⟨?_, fun i => ?_⟩ <;> simp [BInit]
  | tail h1 h2 ih =>
    cases h2 with
    | pollWait hd hi hge =>
      have hci := breach_count_le_i h1 (Or.inl hd)
      omega
    | dispatch h o hd hlt hjtp =>
      constructor
      · simp only [List.mem_append, List.mem_singleton, not_or]
        exact ⟨ih.1, by simp⟩
      · intro i0
        simp only [List.mem_append, List.mem_singleton, not_or]
        exact ⟨ih.2 i0, by simp⟩
    | dispatchThrow h e hd hlt hjtp =>
      constructor
      · simp only [List.mem_append, List.mem_singleton, not_or]
        exact ⟨ih.1, by simp⟩
      · intro i0
        simp only [List.mem_append, List.mem_singleton, not_or]
        exact ⟨ih.2 i0, by simp⟩
    | complete k hk o hph hmem hjtp => simpa using ih
    | startDrain hd hi => simpa using ih
    | drainPoll hd hge =>
      constructor
      · cases hlr : cfg.logRetries <;> simp [hlr, List.mem_append, ih.1]
      · intro i0
        cases hlr : cfg.logRetries <;> simp [hlr, List.mem_append, ih.2 i0]
    | finish hd hlt => simpa using ih

/-- With a non-positive capacity and a non-empty job list, the batch run
deadlocks in its first admission check: every reachable state is still at
loop index 0 in the dispatch phase, with counter zero, no job started,
no record produced, and no error raised. -/
theorem breach_deadlock {J E V : Type} {cfg : BConfig J E V}
    (hmp : cfg.maxParallel ≤ 0) (hne : 0 < cfg.jobs.length)
    {s : BState J E V} (h : BReach cfg s) :
    s.i = 0 ∧ s.runningCount = 0 ∧ s.inFlight = [] ∧ s.runs = [] ∧
      s.phase = BPhase.dispatching ∧ ∀ k, BEvent.logStarted k ∉ s.events := by
  induction h with
  | refl => exact ⟨rfl, rfl, rfl, rfl, rfl, fun k => by simp [BInit]⟩
  | tail h1 h2 ih =>
    cases h2 with
    | pollWait hd hi hge =>
      refine ⟨ih.1, ih.2.1, ih.2.2.1, ih.2.2.2.1, hd, fun k => ?_⟩
      cases hlr : cfg.logRetries <;>
        simp [hlr, List.mem_append, ih.2.2.2.2.2 k]
    | dispatch h o hd hlt hjtp =>
      exact absurd hlt (by rw [ih.2.1]; omega)
    | dispatchThrow h e hd hlt hjtp =>
      exact absurd hlt (by rw [ih.2.1]; omega)
    | complete k hk o hph hmem hjtp =>
      exact absurd hmem (by rw [ih.2.2.1]; simp)
    | startDrain hd hi =>
      exact absurd hi (by rw [ih.1]; omega)
    | drainPoll hd hge =>
      exact absurd hd (by rw [ih.2.2.2.2.1]; simp)
    | finish hd hlt =>
      exact absurd hd (by rw [ih.2.2.2.2.1]; simp)

/-- With an empty job list neither loop ever runs its body: every
reachable state has an empty event trace (no suspension, no diagnostic),
no record, and counter zero, for every capacity including non-positive
ones. -/
theorem breach_empty {J E V : Type} {cfg : BConfig J E V}
    (hjobs : cfg.jobs = []) {s : BState J E V} (h : BReach cfg s) :
    s.runningCount = 0 ∧ s.i = 0 ∧ s.inFlight = [] ∧ s.runs = [] ∧
      s.events = [] := by
  induction h with
  | refl => exact ⟨rfl, rfl, rfl, rfl, rfl⟩
  | tail h1 h2 ih =>
    cases h2 with
    | pollWait hd hi hge => exact absurd hi (by rw [hjobs]; simp)
    | dispatch h o hd hlt hjtp => exact absurd h (by rw [hjobs]; simp)
    | dispatchThrow h e hd hlt hjtp => exact absurd h (by rw [hjobs]; simp)
    | complete k hk o hph hmem hjtp =>
      exact absurd hmem (by rw [ih.2.2.1]; simp)
    | drainPoll hd hge => exact absurd hge (by rw [ih.1]; omega)
    | startDrain hd hi => exact ih
    | finish hd hlt => exact ih

/-- With a positive capacity and jobs that all convert to promises, the
run can dispatch the first `m` jobs and settle each one, coming back to
an idle dispatching state with loop index `m`. -/
theorem breach_dispatch_upto {J E V : Type} (cfg : BConfig J E V)
    (hall : ∀ j ∈ cfg.jobs, ∃ o, cfg.jobToPromise j = JobRun.asyncOp o)
    (hcap : 1 ≤ cfg.maxParallel) :
    ∀ m, m ≤ cfg.jobs.length → ∃ s, BReach cfg s ∧ s.i = m ∧
      s.runningCount = 0 ∧ s.inFlight = [] ∧ s.phase = BPhase.dispatching := by
  intro m
  induction m with
  | zero =>
    exact fun _ => ⟨BInit J E V, Relation.ReflTransGen.refl, rfl, rfl, rfl, rfl⟩
  | succ m ih =>
    intro hm1
    obtain ⟨s, hreach, hi, hcnt, hinf, hph⟩ := ih (Nat.le_of_succ_le hm1)
    have hilt : s.i < cfg.jobs.length := by omega
    obtain ⟨o, ho⟩ := hall (cfg.jobs.get ⟨s.i, hilt⟩) (List.get_mem cfg.jobs s.i hilt)
    have hstep1 := BStep.dispatch s hilt o hph (by rw [hcnt]; omega) ho
    have hmem : s.i ∈ s.inFlight ++ [s.i] := by simp
    have hstep2 := BStep.complete
      { i := s.i + 1, runningCount := s.runningCount + 1,
        inFlight := s.inFlight ++ [s.i], runs := s.runs,
        events := s.events ++ [BEvent.logStarted s.i], phase := BPhase.dispatching }
      s.i hilt o (Or.inl rfl) hmem ho
    refine ⟨_, (hreach.tail hstep1).tail hstep2, ?_, ?_, ?_, rfl⟩
    · simpa using hi
    · simp only []
      omega
    · simp [hinf]

/-- With a positive capacity and jobs that all convert to promises, the
run reaches the returned phase. -/
theorem breach_run_exists {J E V : Type} (cfg : BConfig J E V)
    (hall : ∀ j ∈ cfg.jobs, ∃ o, cfg.jobToPromise j = JobRun.asyncOp o)
    (hcap : 1 ≤ cfg.maxParallel) :
    ∃ s, BReach cfg s ∧ s.phase = BPhase.returned := by
  obtain ⟨s, hreach, hi, hcnt, hinf, hph⟩ :=
    breach_dispatch_upto cfg hall hcap cfg.jobs.length (Nat.le_refl _)
  have hstep3 := BStep.startDrain s hph hi
  have hstep4 := @BStep.finish J E V cfg { s with phase := BPhase.draining } rfl
    (by simp only []; omega)
  exact ⟨_, (hreach.tail hstep3).tail hstep4, rfl⟩

/-- When every job converts to a promise, no synchronous throw can escape
the dispatch loop: the batch never crashes (never rejects). -/
theorem breach_no_crash {J E V : Type} {cfg : BConfig J E V}
    (hall : ∀ j ∈ cfg.jobs, ∃ o, cfg.jobToPromise j = JobRun.asyncOp o)
    {s : BState J E V} (h : BReach cfg s) :
    ∀ e, s.phase ≠ BPhase.crashed e := by
  induction h with
  | refl => intro e he; simp [BInit] at he
  | tail h1 h2 ih =>
    cases h2 with
    | pollWait hd hi hge => simpa using ih
    | dispatch h o hd hlt hjtp => intro e he; simp at he
    | dispatchThrow h e0 hd hlt hjtp =>
      obtain ⟨o, ho⟩ := hall _ (List.get_mem cfg.jobs _ h)
      rw [ho] at hjtp
      cases hjtp
    | complete k hk o hph hmem hjtp => simpa using ih
    | startDrain hd hi => intro e he; simp at he
    | drainPoll hd hge => simpa using ih
    | finish hd hlt => intro e he; simp at he

end AllSettled

/-- The one-step run of the synchronously-throwing batch: the only
available transition drives `cfgThrow` from its initial state into the
crashed state. -/
theorem cfgThrow_reach : AllSettled.BReach cfgThrow crashThrow := by
  have hstep := @AllSettled.BStep.dispatchThrow Unit Nat Unit cfgThrow
    (AllSettled.BInit Unit Nat Unit) (by decide) 7 rfl (by decide) rfl
  exact Relation.ReflTransGen.refl.tail hstep

/-- The synchronously-throwing batch can only sit at its initial state or
crash: those are the only reachable states. -/
theorem cfgThrow_reach_only : ∀ s, AllSettled.BReach cfgThrow s →
    s = AllSettled.BInit Unit Nat Unit ∨ s = crashThrow := by
  intro s h
  induction h with
  | refl => exact Or.inl rfl
  | tail h1 h2 ih =>
    rcases ih with rfl | rfl
    · cases h2 with
      | pollWait hd hi hge => exact absurd hge (by decide)
      | dispatch h o hd hlt hjtp =>
        exact absurd hjtp (by simp [cfgThrow, AllSettled.BInit])
      | dispatchThrow h e hd hlt hjtp =>
        have he : (7 : Nat) = e := by
          simpa [cfgThrow, AllSettled.BInit] using hjtp
        subst he
        exact Or.inr rfl
      | complete k hk o hph hmem hjtp =>
        exact absurd hmem (by simp [AllSettled.BInit])
      | startDrain hd hi => exact absurd hi (by decide)
      | drainPoll hd hge => exact absurd hd (by simp [AllSettled.BInit])
      | finish hd hlt => exact absurd hd (by simp [AllSettled.BInit])
    · cases h2 with
      | pollWait hd hi hge => exact absurd hd (by simp [crashThrow])
      | dispatch h o hd hlt hjtp => exact absurd hd (by simp [crashThrow])
      | dispatchThrow h e hd hlt hjtp => exact absurd hd (by simp [crashThrow])
      | complete k hk o hph hmem hjtp =>
        rcases hph with hp | hp <;> exact absurd hp (by simp [crashThrow])
      | startDrain hd hi => exact absurd hd (by simp [crashThrow])
      | drainPoll hd hge => exact absurd hd (by simp [crashThrow])
      | finish hd hlt => exact absurd hd (by simp [crashThrow])

/-- The capacity-covers-all-jobs batch `cfgDrain` reaches, in three
steps, a drain-loop state that has emitted the waiting-for-completion
diagnostic. -/
theorem cfgDrain_reach : AllSettled.BReach cfgDrain drainState := by
  have h1 := @AllSettled.BStep.dispatch Unit Unit Unit cfgDrain
    (AllSettled.BInit Unit Unit Unit) (by decide) (Except.ok ()) rfl (by decide) rfl
  have h2 := @AllSettled.BStep.startDrain Unit Unit Unit cfgDrain
    { i := 1, runningCount := 1, inFlight := [0], runs := [],
      events := [AllSettled.BEvent.logStarted 0],
      phase := AllSettled.BPhase.dispatching } rfl rfl
  have h3 := @AllSettled.BStep.drainPoll Unit Unit Unit cfgDrain
    { i := 1, runningCount := 1, inFlight := [0], runs := [],
      events := [AllSettled.BEvent.logStarted 0],
      phase := AllSettled.BPhase.draining } rfl (by decide)
  exact ((Relation.ReflTransGen.refl.tail h1).tail h2).tail h3

/-- C1: for every capacity of at least 1, the count of
concurrently-admitted, not-yet-completed operations never exceeds the
capacity: `runningCount ≤ maxParallel` in every state reachable by any
interleaving of `ParallelLimiter.schedule` calls, and in every state
reachable during an `allSettledParallelLimited` run. -/
theorem C1_runningCount_never_exceeds_capacity (mp : Int) (hmp : 1 ≤ mp) :
    (∀ (E V : Type) (lr : Bool) (ops : Nat → Except E V)
      (s : ParallelLimiter.LState E V),
      ParallelLimiter.LReach mp lr ops s → s.runningCount ≤ mp) ∧
    (∀ (J E V : Type) (jobs : List J) (jtp : J → AllSettled.JobRun E V) (lr : Bool)
      (s : AllSettled.BState J E V),
      AllSettled.BReach
        { jobs := jobs, jobToPromise := jtp, maxParallel := mp, logRetries := lr } s →
      s.runningCount ≤ mp) :=
  ⟨fun _ _ _ _ _ h => ParallelLimiter.lreach_count_le (by omega) h,
   fun _ _ _ _ _ _ _ h => AllSettled.breach_count_le (by show (0 : Int) ≤ mp; omega) h⟩

/-- Witness for C1 at capacity 1: the hypothesis holds and the initial
states satisfy the bound. -/
theorem C1_runningCount_never_exceeds_capacity_witness :
    (1 : Int) ≤ 1 ∧
      (ParallelLimiter.LInit Unit Unit).runningCount ≤ 1 ∧
      (AllSettled.BInit Unit Unit Unit).runningCount ≤ 1 :=
  ⟨by decide,
   (C1_runningCount_never_exceeds_capacity 1 (by decide)).1 Unit Unit false
     (fun _ => Except.ok ()) _ Relation.ReflTransGen.refl,
   (C1_runningCount_never_exceeds_capacity 1 (by decide)).2 Unit Unit Unit []
     (fun _ => AllSettled.JobRun.asyncOp (Except.ok ())) false _
     Relation.ReflTransGen.refl⟩

/-- C2: for every batch of jobs that all convert to promises (the
operations of the data model are asynchronous producers) and a positive
capacity, whenever the run returns, it returns exactly one record per
input job, each record's status is fulfilled or rejected, a fulfilled
record carries the operation's value in `value` with `reason` empty, a
rejected record carries the raised error and the originating job in
`reason` with `value` empty; and a returning run exists. -/
theorem C2_allSettled_settles_every_job (J E V : Type) (cfg : AllSettled.BConfig J E V)
    (hall : ∀ j ∈ cfg.jobs, ∃ o, cfg.jobToPromise j = AllSettled.JobRun.asyncOp o)
    (hcap : 1 ≤ cfg.maxParallel) :
    (∀ s, AllSettled.BReach cfg s → s.phase = AllSettled.BPhase.returned →
      s.runs.length = cfg.jobs.length ∧
      ∀ r ∈ s.runs, ∃ j, j ∈ cfg.jobs ∧
        ∃ o, cfg.jobToPromise j = AllSettled.JobRun.asyncOp o ∧
          r = AllSettled.mkRec j o ∧
          ((∃ v, o = Except.ok v ∧ r.status = AllSettled.RecStatus.fulfilled ∧
              r.value = some v ∧ r.reason = none) ∨
           (∃ e, o = Except.error e ∧ r.status = AllSettled.RecStatus.rejected ∧
              r.value = none ∧ r.reason = some (e, j)))) ∧
    (∃ s, AllSettled.BReach cfg s ∧ s.phase = AllSettled.BPhase.returned) := by
  constructor
  · intro s h hret
    have hlive : AllSettled.BLive s := Or.inr (Or.inr hret)
    have hcounts := AllSettled.breach_live_counts h hlive
    have hphase := AllSettled.breach_phase h
    have hlen : s.runs.length = cfg.jobs.length := by
      have hi := hphase.1 (Or.inr hret)
      have hlt := hphase.2 hret
      omega
    refine ⟨hlen, fun r hr => ?_⟩
    obtain ⟨j, hj, o, ho, hrec⟩ := AllSettled.breach_runs_from_jobs h r hr
    refine ⟨j, hj, o, ho, hrec, ?_⟩
    cases o with
    | ok v =>
      exact Or.inl ⟨v, rfl, by simp [hrec, AllSettled.mkRec]⟩
    | error e =>
      exact Or.inr ⟨e, rfl, by simp [hrec, AllSettled.mkRec]⟩
  · exact AllSettled.breach_run_exists cfg hall hcap

/-- Witness for C2 on a concrete one-job batch with capacity 1: both
hypotheses hold and a returning run exists. -/
theorem C2_allSettled_settles_every_job_witness :
    (∀ j ∈ cfgOk.jobs, ∃ o, cfgOk.jobToPromise j = AllSettled.JobRun.asyncOp o) ∧
      (1 : Int) ≤ cfgOk.maxParallel ∧
      (∃ s, AllSettled.BReach cfgOk s ∧ s.phase = AllSettled.BPhase.returned) :=
  ⟨fun _ _ => ⟨Except.ok 7, rfl⟩, by decide,
   (C2_allSettled_settles_every_job Nat Unit Nat cfgOk
     (fun _ _ => ⟨Except.ok 7, rfl⟩) (by decide)).2⟩

/-- C3 counterexample: for the one-job batch whose `jobToPromise` throws
the value 7 synchronously before producing a promise, the run crashes
(the batch promise rejects with the thrown error), never reaches the
returned phase, and never produces any record: the failure is not
captured as a rejected record. -/
theorem C3_counterexample :
    AllSettled.BReach cfgThrow crashThrow ∧
      crashThrow.phase = AllSettled.BPhase.crashed 7 ∧
      (∀ s, AllSettled.BReach cfgThrow s →
        s.phase ≠ AllSettled.BPhase.returned ∧ s.runs = []) := by
  refine ⟨cfgThrow_reach, rfl, fun s h => ?_⟩
  rcases cfgThrow_reach_only s h with rfl | rfl
  · exact ⟨by simp [AllSettled.BInit], rfl⟩
  · exact ⟨by simp [crashThrow], rfl⟩

/-- C3 (amended): a job whose operation yields a rejected promise — in
particular an async operation that raises before producing a value,
which surfaces as a rejection — is captured as a rejected record whose
`reason.error` is the raised error, and the batch still resolves; when
every job converts to a promise the batch never rejects.  A
`jobToPromise` that itself throws synchronously before returning a
promise instead escapes the loop and rejects the whole batch (see the
counterexample). -/
theorem C3_async_failures_are_captured (J E V : Type) (j : J) (e : E)
    (jtp : J → AllSettled.JobRun E V) (mp : Int) (lr : Bool)
    (hj : jtp j = AllSettled.JobRun.asyncOp (Except.error e))
    (hmp : 1 ≤ mp) :
    (∃ s, AllSettled.BReach
        { jobs := [j], jobToPromise := jtp, maxParallel := mp, logRetries := lr } s ∧
      s.phase = AllSettled.BPhase.returned ∧
      s.runs = [AllSettled.mkRec j (Except.error e : Except E V)] ∧
      (AllSettled.mkRec j (Except.error e : Except E V)).status =
        AllSettled.RecStatus.rejected ∧
      (AllSettled.mkRec j (Except.error e : Except E V)).reason = some (e, j)) ∧
    (∀ s, AllSettled.BReach
        { jobs := [j], jobToPromise := jtp, maxParallel := mp, logRetries := lr } s →
      ∀ e', s.phase ≠ AllSettled.BPhase.crashed e') := by
  have hall : ∀ j' ∈ ([j] : List J), ∃ o,
      jtp j' = AllSettled.JobRun.asyncOp o := by
    intro j' hj'
    rw [List.mem_singleton] at hj'
    subst hj'
    exact ⟨Except.error e, hj⟩
  constructor
  · have h1 := @AllSettled.BStep.dispatch J E V
      { jobs := [j], jobToPromise := jtp, maxParallel := mp, logRetries := lr }
      (AllSettled.BInit J E V) (by simp [AllSettled.BInit]) (Except.error e) rfl
      (by show (0 : Int) < mp; omega) hj
    have h2 := @AllSettled.BStep.complete J E V
      { jobs := [j], jobToPromise := jtp, maxParallel := mp, logRetries := lr }
      { i := 1, runningCount := 1, inFlight := [0], runs := [],
        events := [AllSettled.BEvent.logStarted 0],
        phase := AllSettled.BPhase.dispatching }
      0 (by simp) (Except.error e) (Or.inl rfl) (by simp) hj
    have h3 := @AllSettled.BStep.startDrain J E V
      { jobs := [j], jobToPromise := jtp, maxParallel := mp, logRetries := lr }
      { i := 1, runningCount := 0, inFlight := [],
        runs := [AllSettled.mkRec j (Except.error e : Except E V)],
        events := [AllSettled.BEvent.logStarted 0],
        phase := AllSettled.BPhase.dispatching } rfl rfl
    have h4 := @AllSettled.BStep.finish J E V
      { jobs := [j], jobToPromise := jtp, maxParallel := mp, logRetries := lr }
      { i := 1, runningCount := 0, inFlight := [],
        runs := [AllSettled.mkRec j (Except.error e : Except E V)],
        events := [AllSettled.BEvent.logStarted 0],
        phase := AllSettled.BPhase.draining } rfl
      (by show (0 : Int) < 1; norm_num)
    exact ⟨_, (((Relation.ReflTransGen.refl.tail h1).tail h2).tail h3).tail h4,
      rfl, rfl, rfl, rfl⟩
  · exact fun s h e' => AllSettled.breach_no_crash hall h e'

/-- Witness for C3 (amended) on a concrete one-job batch whose operation
rejects with the error 5. -/
theorem C3_async_failures_are_captured_witness :
    ((fun _ => AllSettled.JobRun.asyncOp (Except.error 5) :
        Unit → AllSettled.JobRun Nat Unit) () =
      AllSettled.JobRun.asyncOp (Except.error (5 : Nat) : Except Nat Unit)) ∧
    (1 : Int) ≤ 1 ∧
    (∃ s, AllSettled.BReach
        { jobs := [()],
          jobToPromise := fun _ => AllSettled.JobRun.asyncOp (Except.error 5),
          maxParallel := 1, logRetries := false } s ∧
      s.phase = AllSettled.BPhase.returned ∧
      s.runs = [AllSettled.mkRec () (Except.error 5 : Except Nat Unit)] ∧
      (AllSettled.mkRec () (Except.error 5 : Except Nat Unit)).status =
        AllSettled.RecStatus.rejected ∧
      (AllSettled.mkRec () (Except.error 5 : Except Nat Unit)).reason = some (5, ())) :=
  ⟨rfl, by decide,
   (C3_async_failures_are_captured Unit Nat Unit () 5
     (fun _ => AllSettled.JobRun.asyncOp (Except.error 5)) 1 false rfl (by decide)).1⟩

/-- C4: an admitted `schedule` call whose operation settles passes the
outcome through unchanged — a success with value v returns exactly v, a
failure with error e rethrows exactly e — and the completion decrements
`runningCount` back to its pre-admission value on both paths. -/
theorem C4_schedule_passes_outcome_and_restores_count (E V : Type) (mp : Int)
    (lr : Bool) (ops : Nat → Except E V) (s : ParallelLimiter.LState E V) (k : Nat)
    (hw : s.tasks k = ParallelLimiter.TaskPhase.waiting)
    (hlt : s.runningCount < mp) :
    ParallelLimiter.LStep mp lr ops s (ParallelLimiter.acquireStep s k) ∧
    ParallelLimiter.LStep mp lr ops (ParallelLimiter.acquireStep s k)
      (ParallelLimiter.completeStep ops (ParallelLimiter.acquireStep s k) k) ∧
    (ParallelLimiter.completeStep ops (ParallelLimiter.acquireStep s k) k).runningCount
      = s.runningCount ∧
    (ParallelLimiter.completeStep ops (ParallelLimiter.acquireStep s k) k).tasks k
      = ParallelLimiter.TaskPhase.done (ops k) := by
  refine ⟨ParallelLimiter.LStep.acquire s k hw hlt,
    ParallelLimiter.LStep.complete _ k (by simp [ParallelLimiter.acquireStep]),
    ?_, ?_⟩
  · simp only [ParallelLimiter.completeStep, ParallelLimiter.acquireStep,
      ParallelLimiter.scheduleSettle_eq]
    omega
  · simp [ParallelLimiter.completeStep, ParallelLimiter.acquireStep,
      ParallelLimiter.scheduleSettle_eq]

/-- Witness for C4 at the initial state with capacity 1 and an operation
that succeeds with 5. -/
theorem C4_schedule_passes_outcome_and_restores_count_witness :
    ((ParallelLimiter.LInit Unit Nat).tasks 0 = ParallelLimiter.TaskPhase.waiting ∧
      (ParallelLimiter.LInit Unit Nat).runningCount < 1) ∧
    (ParallelLimiter.completeStep (fun _ => Except.ok 5)
        (ParallelLimiter.acquireStep (ParallelLimiter.LInit Unit Nat) 0) 0).runningCount
      = (ParallelLimiter.LInit Unit Nat).runningCount :=
  ⟨⟨rfl, by decide⟩,
   (C4_schedule_passes_outcome_and_restores_count Unit Nat 1 false
     (fun _ => Except.ok 5) (ParallelLimiter.LInit Unit Nat) 0 rfl (by decide)).2.2.1⟩

/-- C5: with a capacity of zero or less, the admission loop suspends
forever: in every reachable state of the `schedule` machine the counter
is still zero, every call still waits, no operation was ever invoked and
the poll step remains available; likewise the batch run with a non-empty
job list never starts a job, never returns and never crashes, and can
always take another admission-wait step. -/
theorem C5_nonpositive_capacity_deadlocks (mp : Int) (hmp : mp ≤ 0) :
    (∀ (E V : Type) (lr : Bool) (ops : Nat → Except E V)
      (s : ParallelLimiter.LState E V), ParallelLimiter.LReach mp lr ops s →
        s.runningCount = 0 ∧
        (∀ k, s.tasks k = ParallelLimiter.TaskPhase.waiting) ∧
        (∀ k, ParallelLimiter.LEvent.invoked k ∉ s.events) ∧
        ParallelLimiter.LStep mp lr ops s (ParallelLimiter.pollStep lr s)) ∧
    (∀ (J E V : Type) (jobs : List J) (jtp : J → AllSettled.JobRun E V) (lr : Bool),
      0 < jobs.length →
      ∀ s, AllSettled.BReach
          { jobs := jobs, jobToPromise := jtp, maxParallel := mp, logRetries := lr } s →
        s.i = 0 ∧ s.runningCount = 0 ∧ s.runs = [] ∧
        s.phase = AllSettled.BPhase.dispatching ∧
        (∀ k, AllSettled.BEvent.logStarted k ∉ s.events) ∧
        ∃ t, AllSettled.BStep
          { jobs := jobs, jobToPromise := jtp, maxParallel := mp, logRetries := lr } s t) := by
  constructor
  · intro E V lr ops s h
    obtain ⟨h1, h2, h3⟩ := ParallelLimiter.lreach_deadlock hmp h
    exact ⟨h1, h2, h3,
      ParallelLimiter.LStep.poll s 0 (h2 0) (by rw [h1]; omega)⟩
  · intro J E V jobs jtp lr hne s h
    obtain ⟨hi, hc, hif, hr, hp, hlog⟩ :=
      AllSettled.breach_deadlock (by exact hmp) (by exact hne) h
    refine ⟨hi, hc, hr, hp, hlog, ?_⟩
    exact ⟨_, AllSettled.BStep.pollWait s hp (by rw [hi]; exact hne)
      (by rw [hc]; exact hmp)⟩

/-- Witness for C5 at capacity 0, with a one-job batch. -/
theorem C5_nonpositive_capacity_deadlocks_witness :
    (0 : Int) ≤ 0 ∧
    (ParallelLimiter.LInit Unit Unit).runningCount = 0 ∧
    (AllSettled.BInit Unit Unit Unit).i = 0 :=
  ⟨by decide,
   ((C5_nonpositive_capacity_deadlocks 0 (by decide)).1 Unit Unit false
     (fun _ => Except.ok ()) _ Relation.ReflTransGen.refl).1,
   ((C5_nonpositive_capacity_deadlocks 0 (by decide)).2 Unit Unit Unit [()]
     (fun _ => AllSettled.JobRun.asyncOp (Except.ok ())) false (by decide) _
     Relation.ReflTransGen.refl).1⟩

/-- C6 (amended): when the capacity is at least the job count, the batch
never enters an admission wait — the while body that suspends before
admitting a job never executes and no admission-wait diagnostic is ever
emitted; the drain loop may still poll and, with verbose retries, emit
its waiting-for-completion diagnostic (see the counterexample). -/
theorem C6_capacity_covering_jobs_never_admission_waits (J E V : Type)
    (cfg : AllSettled.BConfig J E V)
    (hcap : (cfg.jobs.length : Int) ≤ cfg.maxParallel) :
    ∀ s, AllSettled.BReach cfg s →
      AllSettled.BEvent.suspendedAcquire ∉ s.events ∧
      ∀ i, AllSettled.BEvent.logRunningWait i ∉ s.events :=
  fun _ h => AllSettled.breach_no_acquire_wait hcap h

/-- Witness for C6 (amended) on the one-job capacity-1 batch. -/
theorem C6_capacity_covering_jobs_never_admission_waits_witness :
    ((cfgOk.jobs.length : Int) ≤ cfgOk.maxParallel) ∧
    AllSettled.BEvent.suspendedAcquire ∉ (AllSettled.BInit Nat Unit Nat).events :=
  ⟨by decide,
   (C6_capacity_covering_jobs_never_admission_waits Nat Unit Nat cfgOk (by decide) _
     Relation.ReflTransGen.refl).1⟩

/-- C6 counterexample: with one job, capacity 1 (at least the job count)
and verbose retries, the run reaches a state whose trace contains the
drain-loop polling diagnostic emitted through the logger, so the claim
that no polling diagnostics are emitted fails as stated. -/
theorem C6_counterexample :
    ((cfgDrain.jobs.length : Int) ≤ cfgDrain.maxParallel) ∧
    cfgDrain.logRetries = true ∧
    AllSettled.BReach cfgDrain drainState ∧
    AllSettled.BEvent.logDrainWait ∈ drainState.events :=
  ⟨by decide, rfl, cfgDrain_reach, by simp [drainState]⟩

/-- C7: the null controller's `schedule` invokes the operation and
returns its outcome with an empty controller trace — no admission check,
no counter mutation, no diagnostic, no suspension; in particular an
operation resolving to 42 yields 42 with no suspension ever invoked. -/
theorem C7_noLimiter_invokes_and_returns (E V : Type) :
    (∀ asyncRunner : Unit → Except E V,
      (noLimiter_schedule asyncRunner).1 = asyncRunner () ∧
      (noLimiter_schedule asyncRunner).2 = []) ∧
    (noLimiter_schedule (fun _ => (Except.ok 42 : Except Unit Nat))).1 = Except.ok 42 ∧
    ParallelLimiter.LEvent.suspended ∉
      (noLimiter_schedule (fun _ => (Except.ok 42 : Except Unit Nat))).2 :=
  ⟨fun _ => ⟨rfl, rfl⟩, rfl, by simp [noLimiter_schedule]⟩

/-- C8: a `schedule` call's operation is invoked exactly once: in every
reachable state the invocation count of any task is at most one, and it
is exactly one as soon as the task has been admitted, however many poll
iterations preceded admission and whatever the operation's outcome. -/
theorem C8_operation_invoked_exactly_once (E V : Type) (mp : Int) (lr : Bool)
    (ops : Nat → Except E V) (s : ParallelLimiter.LState E V)
    (h : ParallelLimiter.LReach mp lr ops s) (k : Nat) :
    s.events.count (ParallelLimiter.LEvent.invoked k) ≤ 1 ∧
    (s.tasks k ≠ ParallelLimiter.TaskPhase.waiting →
      s.events.count (ParallelLimiter.LEvent.invoked k) = 1) := by
  obtain ⟨h0, h1⟩ := ParallelLimiter.lreach_invoked_once h k
  refine ⟨?_, h1⟩
  by_cases hw : s.tasks k = ParallelLimiter.TaskPhase.waiting
  · rw [h0 hw]
    omega
  · rw [h1 hw]

/-- Witness for C8 at the initial state. -/
theorem C8_operation_invoked_exactly_once_witness :
    ParallelLimiter.LReach 1 false (fun _ => (Except.ok () : Except Unit Unit))
      (ParallelLimiter.LInit Unit Unit) ∧
    (ParallelLimiter.LInit Unit Unit).events.count
      (ParallelLimiter.LEvent.invoked 0) ≤ 1 :=
  ⟨Relation.ReflTransGen.refl,
   (C8_operation_invoked_exactly_once Unit Unit 1 false (fun _ => Except.ok ()) _
     Relation.ReflTransGen.refl 0).1⟩

/-- C9: with an empty job list, every reachable state of the batch run
has an empty event trace (no suspension of either loop, no diagnostic)
and no record, and the run reaches the returned phase with the empty
collection, for every capacity including zero and negative ones. -/
theorem C9_empty_jobs_resolve_immediately (J E V : Type)
    (jtp : J → AllSettled.JobRun E V) (mp : Int) (lr : Bool) :
    (∀ s, AllSettled.BReach
        { jobs := ([] : List J), jobToPromise := jtp, maxParallel := mp,
          logRetries := lr } s →
      s.events = [] ∧ s.runs = []) ∧
    (∃ s, AllSettled.BReach
        { jobs := ([] : List J), jobToPromise := jtp, maxParallel := mp,
          logRetries := lr } s ∧
      s.phase = AllSettled.BPhase.returned ∧ s.runs = []) := by
  constructor
  · intro s h
    have hx := AllSettled.breach_empty rfl h
    exact ⟨hx.2.2.2.2, hx.2.2.2.1⟩
  · have h1 := @AllSettled.BStep.startDrain J E V
      { jobs := ([] : List J), jobToPromise := jtp, maxParallel := mp,
        logRetries := lr }
      (AllSettled.BInit J E V) rfl rfl
    have h2 := @AllSettled.BStep.finish J E V
      { jobs := ([] : List J), jobToPromise := jtp, maxParallel := mp,
        logRetries := lr }
      { AllSettled.BInit J E V with phase := AllSettled.BPhase.draining } rfl
      (by show (0 : Int) < 1; norm_num)
    exact ⟨_, (Relation.ReflTransGen.refl.tail h1).tail h2, rfl, rfl⟩

/-- C10 (amended): the sink used for diagnostics is `logger.debug` when
the logger is non-nullish and carries a non-nullish `debug` property
(neither undefined nor null), and the logger value itself otherwise; in
particular a console-like object with a `debug` method routes every
diagnostic through that method. -/
theorem C10_logger_sink_selection (l : JSLogger.JSVal) :
    (JSLogger.isNullish (JSLogger.optChainDebug l) = false →
      JSLogger.loggerSink l = JSLogger.optChainDebug l) ∧
    (JSLogger.isNullish (JSLogger.optChainDebug l) = true →
      JSLogger.loggerSink l = l) ∧
    (∀ n, JSLogger.loggerSink (JSLogger.JSVal.obj (JSLogger.JSVal.func n)) =
      JSLogger.JSVal.func n) := by
  refine ⟨?_, ?_, fun n => rfl⟩
  · intro hx
    cases l with
    | undef => simp [JSLogger.optChainDebug, JSLogger.isNullish] at hx
    | null => simp [JSLogger.optChainDebug, JSLogger.isNullish] at hx
    | func t => simp [JSLogger.optChainDebug, JSLogger.isNullish] at hx
    | obj d =>
      cases d <;> simp_all [JSLogger.optChainDebug, JSLogger.isNullish,
        JSLogger.loggerSink, JSLogger.nullishCoalesce]
  · intro hx
    cases l with
    | undef => rfl
    | null => rfl
    | func t => rfl
    | obj d =>
      cases d <;> simp_all [JSLogger.optChainDebug, JSLogger.isNullish,
        JSLogger.loggerSink, JSLogger.nullishCoalesce]

/-- Witness for C10 (amended) on a console-like logger object. -/
theorem C10_logger_sink_selection_witness :
    JSLogger.isNullish (JSLogger.optChainDebug
      (JSLogger.JSVal.obj (JSLogger.JSVal.func 3))) = false ∧
    JSLogger.loggerSink (JSLogger.JSVal.obj (JSLogger.JSVal.func 3)) =
      JSLogger.optChainDebug (JSLogger.JSVal.obj (JSLogger.JSVal.func 3)) :=
  ⟨rfl, (C10_logger_sink_selection (JSLogger.JSVal.obj (JSLogger.JSVal.func 3))).1 rfl⟩

/-- C10 counterexample: for a logger object whose `debug` property is
defined but null, line 62 selects the logger object itself as the sink
rather than `logger.debug`, because `??` treats a null `debug` exactly
like an undefined one. -/
theorem C10_counterexample :
    JSLogger.optChainDebug (JSLogger.JSVal.obj JSLogger.JSVal.null) =
      JSLogger.JSVal.null ∧
    JSLogger.loggerSink (JSLogger.JSVal.obj JSLogger.JSVal.null) =
      JSLogger.JSVal.obj JSLogger.JSVal.null ∧
    JSLogger.loggerSink (JSLogger.JSVal.obj JSLogger.JSVal.null) ≠
      JSLogger.optChainDebug (JSLogger.JSVal.obj JSLogger.JSVal.null) :=
  ⟨rfl, rfl, by decide⟩

/-- Witness for C7 at the operation resolving to 42. -/
theorem C7_noLimiter_invokes_and_returns_witness :
    (noLimiter_schedule (fun _ => (Except.ok 42 : Except Unit Nat))).1 =
      Except.ok 42 :=
  (C7_noLimiter_invokes_and_returns Unit Nat).2.1

/-- Witness for C9 at a concrete empty batch with capacity 1. -/
theorem C9_empty_jobs_resolve_immediately_witness :
    (AllSettled.BInit Unit Unit Unit).events = [] ∧
      (AllSettled.BInit Unit Unit Unit).runs = [] :=
  (C9_empty_jobs_resolve_immediately Unit Unit Unit
    (fun _ => AllSettled.JobRun.asyncOp (Except.ok ())) 1 false).1 _
    Relation.ReflTransGen.refl
